import Mathlib

/-!
Verification of the docker-stats repository: a shallow embedding of the
REST-client wrappers (`src/dh_api/dh_rest.py`, `src/gh_api/gh_rest.py`) and the
snapshot-writing orchestrator scripts (`src/fetch-dockerhub-stats.py`,
`src/fetch-github-stats.py`).

Python dictionaries are embedded as association lists of `String` keys with an
update-or-append insertion (`dinsert`, matching `d[k] = v`), first-match lookup
(`lookupD`, matching `d.get(k)`), and extensional equality (`dictEq`, matching
Python's order-independent `dict ==`).  Time values (`time.time()` floats) are
embedded as rationals.
-/

/-- Model of Python `d.get(k)` on an association list: the binding of the
first matching key, if any. -/
def lookupD {V : Type} (m : List (String × V)) (k : String) : Option V :=
  match m with
  | [] => none
  | (k', v) :: t => if k = k' then some v else lookupD t k

/-- Model of Python `d[k] = v`: replace the binding of `k` in place if present,
otherwise append the new binding (Python dicts keep insertion order). -/
def dinsert {V : Type} (m : List (String × V)) (k : String) (v : V) :
    List (String × V) :=
  match m with
  | [] => [(k, v)]
  | (k', v') :: t => if k = k' then (k, v) :: t else (k', v') :: dinsert t k v

/-- The association list has no repeated keys (always true of a list built by
`dinsert`, as Python dicts cannot repeat keys). -/
def nodupKeys {V : Type} (m : List (String × V)) : Prop :=
  (m.map Prod.fst).Nodup

/-- Model of Python `d1 == d2` on dictionaries: every binding of each list is
the binding the other list gives that key.  On duplicate-free lists this is
exactly key-set equality plus pointwise value equality. -/
def dictEq {V : Type} [DecidableEq V] (m₁ m₂ : List (String × V)) : Bool :=
  m₁.all (fun p => lookupD m₂ p.1 == some p.2) &&
    m₂.all (fun p => lookupD m₁ p.1 == some p.2)

theorem lookupD_dinsert_self {V : Type} (m : List (String × V)) (k : String)
    (v : V) : lookupD (dinsert m k v) k = some v := by
  induction m with
  | nil => simp [dinsert, lookupD]
  | cons p t ih =>
      obtain ⟨k', v'⟩ := p
      by_cases h : k = k' <;> simp [dinsert, lookupD, h, ih]

theorem lookupD_dinsert_ne {V : Type} (m : List (String × V)) (k k' : String)
    (v : V) (h : k' ≠ k) : lookupD (dinsert m k v) k' = lookupD m k' := by
  induction m with
  | nil => simp [dinsert, lookupD, h]
  | cons p t ih =>
      obtain ⟨k₀, v₀⟩ := p
      by_cases hk : k = k₀
      · subst hk
        simp [dinsert, lookupD, h]
      · by_cases hk' : k' = k₀ <;> simp [dinsert, lookupD, hk, hk', ih]

theorem lookupD_of_mem_nodup {V : Type} {m : List (String × V)}
    (hm : nodupKeys m) {k : String} {v : V} (hmem : (k, v) ∈ m) :
    lookupD m k = some v := by
  induction m with
  | nil => cases hmem
  | cons p t ih =>
      obtain ⟨k₀, v₀⟩ := p
      rcases List.mem_cons.mp hmem with h | h
      · cases h
        simp [lookupD]
      · have hk : k ≠ k₀ := by
          rintro rfl
          have := (List.nodup_cons.mp hm).1
          exact this (List.mem_map.mpr ⟨(k, v), h, rfl⟩)
        have ht : nodupKeys t := (List.nodup_cons.mp hm).2
        simp [lookupD, hk, ih ht h]

theorem dictEq_refl {V : Type} [DecidableEq V] {m : List (String × V)}
    (hm : nodupKeys m) : dictEq m m = true := by
  simp only [dictEq, Bool.and_self, List.all_eq_true]
  intro p hp
  obtain ⟨k, v⟩ := p
  simp [lookupD_of_mem_nodup hm hp]

/-!
## SnapshotWriter

Model of the snapshot construction shared verbatim between
`src/fetch-dockerhub-stats.py` (lines 63-73) and `src/fetch-github-stats.py`
(lines 68-78):

    old_repositories = old_stats.get("repositories", {})
    old_totals = old_stats.get("totals", {})
    has_changes = new_repositories != old_repositories or totals != old_totals
    stats = {
        "last_updated": datetime.now(UTC).isoformat() if has_changes
                        else old_stats.get("last_updated", datetime.now(UTC).isoformat()),
        "totals": totals,
        "repositories": new_repositories
    }

The two `datetime.now` calls are collapsed into one `now : String` parameter.
The record value type is a parameter `V` (Docker Hub and GitHub scripts store
different per-repository record shapes).
-/

/-- The on-disk snapshot document.  `last_updated` is optional because the
previous file is read with `old_stats.get("last_updated", ...)`, which
tolerates a missing field; the fields written are always present. -/
structure Snapshot (V : Type) where
  last_updated : Option String
  totals : List (String × Int)
  repositories : List (String × V)
deriving DecidableEq

/-- Model of `old_stats.get("repositories", {})`: no previous file means the
empty dict. -/
def oldRepositories {V : Type} (old : Option (Snapshot V)) :
    List (String × V) :=
  (old.map Snapshot.repositories).getD []

/-- Model of `old_stats.get("totals", {})`. -/
def oldTotals {V : Type} (old : Option (Snapshot V)) : List (String × Int) :=
  (old.map Snapshot.totals).getD []

/-- Model of `has_changes = new_repositories != old_repositories or totals !=
old_totals` (Python dict inequality). -/
def hasChanges {V : Type} [DecidableEq V] (old : Option (Snapshot V))
    (newRepositories : List (String × V)) (totals : List (String × Int)) :
    Bool :=
  !dictEq newRepositories (oldRepositories old) || !dictEq totals (oldTotals old)

/-- Model of the `stats = { ... }` document built by both orchestrator
scripts: the timestamp is `now` when the records or totals changed, otherwise
`old_stats.get("last_updated", now)`. -/
def writeStats {V : Type} [DecidableEq V] (old : Option (Snapshot V))
    (newRepositories : List (String × V)) (totals : List (String × Int))
    (now : String) : Snapshot V :=
  { last_updated :=
      some (if hasChanges old newRepositories totals then now
            else ((old.bind Snapshot.last_updated).getD now)),
    totals := totals,
    repositories := newRepositories }

/-- C1: the output document's `last_updated` is the current time exactly when
the new records or totals differ (by deep dict equality) from the previous
snapshot's; otherwise it is carried over from the previous snapshot (and is
the current time when no previous snapshot existed); in particular a second
write with identical records and totals leaves `last_updated` unchanged. -/
theorem C1_snapshot_timestamp {V : Type} [DecidableEq V]
    (old : Option (Snapshot V)) (newR : List (String × V))
    (newT : List (String × Int)) (now now₂ : String)
    (hR : nodupKeys newR) (hT : nodupKeys newT) :
    ((!dictEq newR (oldRepositories old) || !dictEq newT (oldTotals old)) = true →
        (writeStats old newR newT now).last_updated = some now) ∧
    ((dictEq newR (oldRepositories old) && dictEq newT (oldTotals old)) = true →
        ∀ s t, old = some s → s.last_updated = some t →
          (writeStats old newR newT now).last_updated = some t) ∧
    (old = none → (writeStats old newR newT now).last_updated = some now) ∧
    ((writeStats (some (writeStats old newR newT now)) newR newT now₂).last_updated
        = (writeStats old newR newT now).last_updated) := by
  refine ⟨?_, ?_, ?_, ?_⟩
  · intro h
    simp [writeStats, hasChanges, h]
  · rintro h s t rfl ht
    simp only [Bool.and_eq_true] at h
    simp [writeStats, hasChanges, h.1, h.2, ht]
  · rintro rfl
    by_cases h : hasChanges (V := V) none newR newT = true <;>
      simp [writeStats, h]
  · have hch : hasChanges (some (writeStats old newR newT now)) newR newT = false := by
      simp [hasChanges, oldRepositories, oldTotals, writeStats,
        dictEq_refl hR, dictEq_refl hT]
    have hlu : ∀ (o : Option (Snapshot V)) (a : List (String × V))
        (c : List (String × Int)) (n : String),
        hasChanges o a c = false →
        (writeStats o a c n).last_updated = some ((o.bind Snapshot.last_updated).getD n) := by
      intro o a c n h
      simp [writeStats, h]
    rw [hlu _ _ _ _ hch]
    simp [writeStats]

theorem C1_snapshot_timestamp_witness :
    (writeStats
        (some (writeStats (V := Int) (some ⟨some "T0", [("total_pulls", 5)], [("ns/a", 5)]⟩)
          [("ns/a", 5)] [("total_pulls", 5)] "T1"))
        [("ns/a", 5)] [("total_pulls", 5)] "T2").last_updated
      = (writeStats (V := Int) (some ⟨some "T0", [("total_pulls", 5)], [("ns/a", 5)]⟩)
          [("ns/a", 5)] [("total_pulls", 5)] "T1").last_updated :=
  (C1_snapshot_timestamp (some ⟨some "T0", [("total_pulls", 5)], [("ns/a", 5)]⟩)
    [("ns/a", 5)] [("total_pulls", 5)] "T1" "T2"
    (by simp [nodupKeys]) (by simp [nodupKeys])).2.2.2

/-!
## Request executor (`_make_request`)

Model of `DockerHubRestApi._make_request` (`src/dh_api/dh_rest.py` lines
75-127) and `GitHubRestApi._make_request` (`src/gh_api/gh_rest.py` lines
105-163).  The two bodies are identical except that

* the rate-limit test is `status == 429` for Docker Hub and
  `status in [403, 429]` for GitHub (parameter `isRL`), and
* the GitHub client runs `_check_rate_limit` (a quota-guard sleep) between
  `_sleep_between_requests` and the loop (parameter `extraPre`, `0` for the
  Docker Hub client).

The network is an oracle: attempt `k` of the loop either returns a response
(status plus optional integer `Retry-After` header) or raises a
transport-level `RequestException`, and takes `dur k` seconds.  An essential
point of the source is that `response.raise_for_status()` raises
`requests.HTTPError`, a subclass of `requests.exceptions.RequestException`,
so an error status outside the rate-limit set is caught by the same
`except requests.exceptions.RequestException` handler as a transport failure.

The `while retry_count <= max_retries` loop increases `retry_count` on every
iteration that does not return, so it runs at most `max_retries + 2` times; a
structural `fuel` argument (called with `max_retries + 2`) makes the recursion
structural while the source's own guard is kept verbatim.
-/

/-- The clock of a client instance: the current `time.time()` and the
`self.last_request_time` field (initialised to `0` in `__init__`). -/
structure Clock where
  now : ℚ
  last_request_time : ℚ
deriving DecidableEq

/-- Outcome of one `self.session.request(...)` call: an HTTP response (with
optional integer `Retry-After` header) or a raised transport-level
`requests.exceptions.RequestException` (connection error, timeout). -/
inductive AttemptResult where
  | response (status : Nat) (retryAfter : Option Nat)
  | transportError
deriving DecidableEq

/-- Trace entry for one attempt: when it started, when it finished, and
whether it produced a response (rather than raising at transport level). -/
structure AttemptRec where
  start : ℚ
  finish : ℚ
  gotResponse : Bool
deriving DecidableEq

/-- How a `_make_request` call ends. -/
inductive MrOutcome where
  | success (attempt status : Nat)
  | raisedStatus (status : Nat)
  | raisedTransport
  | terminal (msg : String)
deriving DecidableEq

/-- Result of a `_make_request` call: the outcome, the final clock, the trace
of attempts, and the list of in-loop sleeps (in order). -/
structure MrResult where
  outcome : MrOutcome
  clock : Clock
  trace : List AttemptRec
  sleeps : List ℚ
deriving DecidableEq

/-- Model of `requests.Response.raise_for_status`: it raises exactly for
status codes in [400, 600). -/
def raisesForStatus (status : Nat) : Bool :=
  400 ≤ status && status < 600

/-- The `while retry_count <= max_retries` loop of `_make_request`.  Branches,
in source order: a returned response updates `self.last_request_time`; a
rate-limited status sleeps `int(Retry-After)` if the header is present, else
the backoff, then doubles the backoff and retries; any other error status
raises `requests.HTTPError` via `raise_for_status`, which the
`except RequestException` clause catches — re-raised once
`retry_count > max_retries`, otherwise it sleeps the backoff, doubles it and
retries; a transport failure follows the same `except` path but never updates
`self.last_request_time`.  After the loop,
`raise requests.HTTPError(f"Request failed after {max_retries} retries")`. -/
def mrLoop (isRL : Nat → Bool) (att : Nat → AttemptResult) (dur : Nat → ℚ)
    (maxRetries : Nat) :
    Nat → Nat → Nat → Nat → Clock → MrResult
  | 0, _, _, _, c =>
      ⟨.terminal ("Request failed after " ++ toString maxRetries ++ " retries"),
        c, [], []⟩
  | fuel + 1, k, retryCount, backoffTime, c =>
      if retryCount ≤ maxRetries then
        let start := c.now
        match att k with
        | .transportError =>
            let c' : Clock := { c with now := start + dur k }
            let rec₀ : AttemptRec := ⟨start, start + dur k, false⟩
            if retryCount + 1 > maxRetries then
              ⟨.raisedTransport, c', [rec₀], []⟩
            else
              let c'' : Clock := { c' with now := c'.now + (backoffTime : ℚ) }
              let r := mrLoop isRL att dur maxRetries fuel (k + 1)
                (retryCount + 1) (backoffTime * 2) c''
              { r with trace := rec₀ :: r.trace,
                       sleeps := (backoffTime : ℚ) :: r.sleeps }
        | .response status retryAfter =>
            let fin := start + dur k
            let c' : Clock := { now := fin, last_request_time := fin }
            let rec₀ : AttemptRec := ⟨start, fin, true⟩
            if isRL status then
              let waitTime : ℚ :=
                match retryAfter with
                | some n => (n : ℚ)
                | none => (backoffTime : ℚ)
              let c'' : Clock := { c' with now := c'.now + waitTime }
              let r := mrLoop isRL att dur maxRetries fuel (k + 1)
                (retryCount + 1) (backoffTime * 2) c''
              { r with trace := rec₀ :: r.trace, sleeps := waitTime :: r.sleeps }
            else if raisesForStatus status then
              if retryCount + 1 > maxRetries then
                ⟨.raisedStatus status, c', [rec₀], []⟩
              else
                let c'' : Clock := { c' with now := c'.now + (backoffTime : ℚ) }
                let r := mrLoop isRL att dur maxRetries fuel (k + 1)
                  (retryCount + 1) (backoffTime * 2) c''
                { r with trace := rec₀ :: r.trace,
                         sleeps := (backoffTime : ℚ) :: r.sleeps }
            else
              ⟨.success k status, c', [rec₀], []⟩
      else
        ⟨.terminal ("Request failed after " ++ toString maxRetries ++ " retries"),
          c, [], []⟩

/-- Model of `_sleep_between_requests` (dh_rest.py lines 43-49, gh_rest.py
lines 51-57): sleep `min_sleep_time - elapsed` when less than
`min_sleep_time = 0.5` seconds have elapsed since `self.last_request_time`. -/
def sleep_between_requests (c : Clock) : Clock :=
  if c.now - c.last_request_time < 1/2 then
    { c with now := c.now + (1/2 - (c.now - c.last_request_time)) }
  else c

/-- Model of a full `_make_request` call: the inter-request guard, the
GitHub-only quota-guard sleep (`extraPre`, `0` for Docker Hub), then the retry
loop starting with `retry_count = 0`, `backoff_time = 1`. -/
def make_request (isRL : Nat → Bool) (extraPre : ℚ) (att : Nat → AttemptResult)
    (dur : Nat → ℚ) (maxRetries : Nat) (c : Clock) : MrResult :=
  let c₁ := sleep_between_requests c
  let c₂ : Clock := { c₁ with now := c₁.now + extraPre }
  mrLoop isRL att dur maxRetries (maxRetries + 2) 0 0 1 c₂

/-- The Docker Hub rate-limit test: `response.status_code == 429`
(dh_rest.py line 97). -/
def dhIsRL (status : Nat) : Bool := status == 429

/-- The GitHub rate-limit test: `response.status_code in [403, 429]`
(gh_rest.py line 133). -/
def ghIsRL (status : Nat) : Bool := status == 403 || status == 429

/-- Boolean substring test on strings (used to state what a raised error
message does or does not mention). -/
def subSeqAt (needle : List Char) : List Char → Bool
  | [] => needle.isEmpty
  | c :: rest => needle.isPrefixOf (c :: rest) || subSeqAt needle rest

/-- String containment: `strContains hay needle` holds when `needle` occurs
contiguously inside `hay`. -/
def strContains (hay needle : String) : Bool :=
  subSeqAt needle.data hay.data

/-- The end time of the most recent attempt of the trace that received a
response, or `init` when no attempt did. -/
def lastRespFinish (init : ℚ) (tr : List AttemptRec) : ℚ :=
  tr.foldl (fun acc r => if r.gotResponse then r.finish else acc) init

theorem mrLoop_error_status (isRL : Nat → Bool) (att : Nat → AttemptResult)
    (dur : Nat → ℚ) (maxRetries : Nat) (st : Nat → Nat) (ra : Nat → Option Nat)
    (hatt : ∀ j, att j = .response (st j) (ra j))
    (herr : ∀ j, raisesForStatus (st j) = true)
    (hrl : ∀ j, isRL (st j) = false) :
    ∀ (n fuel k rc backoff : Nat) (c : Clock), rc + n = maxRetries → n < fuel →
      (mrLoop isRL att dur maxRetries fuel k rc backoff c).outcome
          = .raisedStatus (st (k + n)) ∧
      (mrLoop isRL att dur maxRetries fuel k rc backoff c).sleeps
          = (List.range n).map (fun i => (backoff : ℚ) * 2 ^ i) ∧
      (mrLoop isRL att dur maxRetries fuel k rc backoff c).trace.length = n + 1 := by
  intro n
  induction n with
  | zero =>
      intro fuel k rc backoff c h hf
      obtain ⟨f, rfl⟩ : ∃ f, fuel = f + 1 := ⟨fuel - 1, by omega⟩
      have hrc : rc ≤ maxRetries := by omega
      have hgt : rc + 1 > maxRetries := by omega
      simp [mrLoop, hrc, hatt k, hrl k, herr k, hgt]
  | succ n ih =>
      intro fuel k rc backoff c h hf
      obtain ⟨f, rfl⟩ : ∃ f, fuel = f + 1 := ⟨fuel - 1, by omega⟩
      have hrc : rc ≤ maxRetries := by omega
      have hno : ¬ rc + 1 > maxRetries := by omega
      have key := fun c' => ih f (k + 1) (rc + 1) (backoff * 2) c' (by omega) (by omega)
      have hkn : k + 1 + n = k + (n + 1) := by omega
      simp only [mrLoop, hrc, hatt k, hrl k, herr k, hno, if_true, if_false,
        Bool.false_eq_true, ite_false, ite_true]
      refine ⟨?_, ?_, ?_⟩
      · rw [(key _).1, hkn]
      · rw [(key _).2.1, List.range_succ_eq_map, List.map_cons, List.map_map]
        refine congrArg₂ _ (by simp) (List.map_congr_left ?_)
        intro i _
        simp only [Function.comp, Nat.succ_eq_add_one]
        push_cast
        ring
      · simp only [List.length_cons, (key _).2.2]

theorem mrLoop_transport (isRL : Nat → Bool) (att : Nat → AttemptResult)
    (dur : Nat → ℚ) (maxRetries : Nat)
    (hatt : ∀ j, att j = .transportError) :
    ∀ (n fuel k rc backoff : Nat) (c : Clock), rc + n = maxRetries → n < fuel →
      (mrLoop isRL att dur maxRetries fuel k rc backoff c).outcome
          = .raisedTransport ∧
      (mrLoop isRL att dur maxRetries fuel k rc backoff c).sleeps
          = (List.range n).map (fun i => (backoff : ℚ) * 2 ^ i) ∧
      (mrLoop isRL att dur maxRetries fuel k rc backoff c).trace.length = n + 1 := by
  intro n
  induction n with
  | zero =>
      intro fuel k rc backoff c h hf
      obtain ⟨f, rfl⟩ : ∃ f, fuel = f + 1 := ⟨fuel - 1, by omega⟩
      have hrc : rc ≤ maxRetries := by omega
      have hgt : rc + 1 > maxRetries := by omega
      simp [mrLoop, hrc, hatt k, hgt]
  | succ n ih =>
      intro fuel k rc backoff c h hf
      obtain ⟨f, rfl⟩ : ∃ f, fuel = f + 1 := ⟨fuel - 1, by omega⟩
      have hrc : rc ≤ maxRetries := by omega
      have hno : ¬ rc + 1 > maxRetries := by omega
      have key := fun c' => ih f (k + 1) (rc + 1) (backoff * 2) c' (by omega) (by omega)
      simp only [mrLoop, hrc, hatt k, hno, if_true, if_false, ite_false, ite_true]
      refine ⟨?_, ?_, ?_⟩
      · rw [(key _).1]
      · rw [(key _).2.1, List.range_succ_eq_map, List.map_cons, List.map_map]
        refine congrArg₂ _ (by simp) (List.map_congr_left ?_)
        intro i _
        simp only [Function.comp, Nat.succ_eq_add_one]
        push_cast
        ring
      · simp only [List.length_cons, (key _).2.2]

theorem mrLoop_rate_limited (isRL : Nat → Bool) (att : Nat → AttemptResult)
    (dur : Nat → ℚ) (maxRetries : Nat) (st : Nat → Nat) (ra : Nat → Option Nat)
    (hatt : ∀ j, att j = .response (st j) (ra j))
    (hrl : ∀ j, isRL (st j) = true) :
    ∀ (n fuel k rc backoff : Nat) (c : Clock), rc + n = maxRetries → n + 1 < fuel →
      (mrLoop isRL att dur maxRetries fuel k rc backoff c).outcome
          = .terminal ("Request failed after " ++ toString maxRetries ++ " retries") ∧
      (mrLoop isRL att dur maxRetries fuel k rc backoff c).sleeps
          = (List.range (n + 1)).map
              (fun i => match ra (k + i) with
                        | some m => (m : ℚ)
                        | none => (backoff : ℚ) * 2 ^ i) ∧
      (mrLoop isRL att dur maxRetries fuel k rc backoff c).trace.length = n + 1 := by
  intro n
  induction n with
  | zero =>
      intro fuel k rc backoff c h hf
      obtain ⟨f, rfl⟩ : ∃ f, fuel = f + 1 := ⟨fuel - 1, by omega⟩
      obtain ⟨f', rfl⟩ : ∃ f', f = f' + 1 := ⟨f - 1, by omega⟩
      have hrc : rc ≤ maxRetries := by omega
      have hno : ¬ rc + 1 ≤ maxRetries := by omega
      simp [mrLoop, hrc, hatt k, hrl k, hno]
      cases hra : ra k <;> simp [List.range_succ, hra]
  | succ n ih =>
      intro fuel k rc backoff c h hf
      obtain ⟨f, rfl⟩ : ∃ f, fuel = f + 1 := ⟨fuel - 1, by omega⟩
      have hrc : rc ≤ maxRetries := by omega
      have key := fun c' => ih f (k + 1) (rc + 1) (backoff * 2) c' (by omega) (by omega)
      simp only [mrLoop, hrc, hatt k, hrl k, if_true, ite_true]
      refine ⟨?_, ?_, ?_⟩
      · rw [(key _).1]
      · rw [(key _).2.1]
        conv_rhs => rw [List.range_succ_eq_map, List.map_cons, List.map_map]
        simp only [List.cons.injEq]
        constructor
        · cases hra : ra k <;> simp [hra]
        · refine List.map_congr_left ?_
          intro i _
          simp only [Function.comp, Nat.succ_eq_add_one]
          have harg : k + 1 + i = k + (i + 1) := by omega
          rw [harg]
          cases ra (k + (i + 1)) with
          | some m => simp
          | none =>
              push_cast
              ring
      · simp only [List.length_cons, (key _).2.2]

theorem mrLoop_last_request_time (isRL : Nat → Bool) (att : Nat → AttemptResult)
    (dur : Nat → ℚ) (maxRetries : Nat) :
    ∀ (fuel k rc backoff : Nat) (c : Clock),
      (mrLoop isRL att dur maxRetries fuel k rc backoff c).clock.last_request_time
        = lastRespFinish c.last_request_time
            (mrLoop isRL att dur maxRetries fuel k rc backoff c).trace := by
  intro fuel
  induction fuel with
  | zero => intro k rc backoff c; rfl
  | succ f ih =>
      intro k rc backoff c
      by_cases hrc : rc ≤ maxRetries
      · cases hk : att k with
        | transportError =>
            by_cases hgt : rc + 1 > maxRetries <;>
              simp [mrLoop, hrc, hk, hgt, lastRespFinish, ih]
        | response status retryAfter =>
            by_cases hr : isRL status = true
            · simp [mrLoop, hrc, hk, hr, lastRespFinish, ih]
            · by_cases hs : raisesForStatus status = true
              · by_cases hgt : rc + 1 > maxRetries <;>
                  simp [mrLoop, hrc, hk, hr, hs, hgt, lastRespFinish, ih]
              · simp [mrLoop, hrc, hk, hr, hs, lastRespFinish]
      · simp [mrLoop, hrc, lastRespFinish]

theorem mrLoop_trace_head (isRL : Nat → Bool) (att : Nat → AttemptResult)
    (dur : Nat → ℚ) (maxRetries fuel k rc backoff : Nat) (c : Clock)
    (hrc : rc ≤ maxRetries) (hf : 0 < fuel) :
    ((mrLoop isRL att dur maxRetries fuel k rc backoff c).trace.head?.map
        AttemptRec.start) = some c.now := by
  obtain ⟨f, rfl⟩ : ∃ f, fuel = f + 1 := ⟨fuel - 1, by omega⟩
  cases hk : att k with
  | transportError =>
      by_cases hgt : rc + 1 > maxRetries <;> simp [mrLoop, hrc, hk, hgt]
  | response status retryAfter =>
      by_cases hr : isRL status = true
      · simp [mrLoop, hrc, hk, hr]
      · by_cases hs : raisesForStatus status = true
        · by_cases hgt : rc + 1 > maxRetries <;> simp [mrLoop, hrc, hk, hr, hs, hgt]
        · simp [mrLoop, hrc, hk, hr, hs]

theorem sleep_between_requests_last (c : Clock) :
    (sleep_between_requests c).last_request_time = c.last_request_time := by
  unfold sleep_between_requests
  split <;> rfl

theorem sleep_between_requests_now (c : Clock) :
    c.last_request_time + 1/2 ≤ (sleep_between_requests c).now := by
  unfold sleep_between_requests
  split
  · simp only
    linarith
  · next h => linarith [not_lt.mp h]

/-- The concrete run refuting C2: every attempt returns status 404 (an error
status that is not a rate-limit signal for the Docker Hub client). -/
def c2run : MrResult :=
  make_request dhIsRL 0 (fun _ => .response 404 none) (fun _ => 0) 3 ⟨10, 0⟩

/-- C2 counterexample: with `max_retries = 3`, a request whose every attempt
returns 404 is retried three times with backoff sleeps of 1, 2 and 4 seconds
(four attempts in all) before the `HTTPError` propagates, because
`raise_for_status`'s `HTTPError` is a `RequestException` and is caught by the
retry handler — it is not raised immediately with no retry or sleep as the
claim states. -/
theorem C2_counterexample :
    c2run.outcome = .raisedStatus 404 ∧ c2run.sleeps = [1, 2, 4] ∧
      c2run.trace.length = 4 := by decide

/-- C2 (amended): a response whose status is an error but not a rate-limit
signal makes `raise_for_status` raise `requests.HTTPError`, which the
`except RequestException` clause catches, so such statuses are retried with
the exponential backoff (1, 2, 4, ... seconds) exactly like transport-level
failures, and the error propagates only once the retry count exceeds
`max_retries` — after `max_retries + 1` attempts in all.  Transport-level
failures (connection errors, timeouts) follow the same path. -/
theorem C2_error_status_retried_like_transport (isRL : Nat → Bool)
    (extraPre : ℚ) (att : Nat → AttemptResult) (dur : Nat → ℚ)
    (maxRetries : Nat) (c : Clock) (st : Nat → Nat) (ra : Nat → Option Nat) :
    ((∀ j, att j = .response (st j) (ra j)) →
     (∀ j, raisesForStatus (st j) = true) →
     (∀ j, isRL (st j) = false) →
       (make_request isRL extraPre att dur maxRetries c).outcome
           = .raisedStatus (st maxRetries) ∧
       (make_request isRL extraPre att dur maxRetries c).sleeps
           = (List.range maxRetries).map (fun i => (2 : ℚ) ^ i) ∧
       (make_request isRL extraPre att dur maxRetries c).trace.length
           = maxRetries + 1) ∧
    ((∀ j, att j = .transportError) →
       (make_request isRL extraPre att dur maxRetries c).outcome
           = .raisedTransport ∧
       (make_request isRL extraPre att dur maxRetries c).sleeps
           = (List.range maxRetries).map (fun i => (2 : ℚ) ^ i) ∧
       (make_request isRL extraPre att dur maxRetries c).trace.length
           = maxRetries + 1) := by
  constructor
  · intro hatt herr hrl
    have key := fun c' => mrLoop_error_status isRL att dur maxRetries st ra
      hatt herr hrl maxRetries (maxRetries + 2) 0 0 1 c' (by omega) (by omega)
    simp only [make_request]
    refine ⟨?_, ?_, ?_⟩
    · rw [(key _).1]
      simp
    · rw [(key _).2.1]
      refine List.map_congr_left ?_
      intro i _
      simp
    · rw [(key _).2.2]
  · intro hatt
    have key := fun c' => mrLoop_transport isRL att dur maxRetries hatt
      maxRetries (maxRetries + 2) 0 0 1 c' (by omega) (by omega)
    simp only [make_request]
    refine ⟨?_, ?_, ?_⟩
    · rw [(key _).1]
    · rw [(key _).2.1]
      refine List.map_congr_left ?_
      intro i _
      simp
    · rw [(key _).2.2]

theorem C2_error_status_retried_like_transport_witness :
    (make_request dhIsRL 0 (fun _ => .response 404 none) (fun _ => 0) 2
        ⟨10, 0⟩).outcome = .raisedStatus 404 ∧
    (make_request dhIsRL 0 (fun _ => .response 404 none) (fun _ => 0) 2
        ⟨10, 0⟩).sleeps = (List.range 2).map (fun i => (2 : ℚ) ^ i) ∧
    (make_request dhIsRL 0 (fun _ => .response 404 none) (fun _ => 0) 2
        ⟨10, 0⟩).trace.length = 2 + 1 :=
  (C2_error_status_retried_like_transport dhIsRL 0 (fun _ => .response 404 none)
      (fun _ => 0) 2 ⟨10, 0⟩ (fun _ => 404) (fun _ => none)).1
    (fun _ => rfl) (fun _ => by decide) (fun _ => by decide)

/-- The concrete run refuting the endpoint part of C3: every attempt is
rate-limited (status 429, no `Retry-After`). -/
def c3run : MrResult :=
  make_request dhIsRL 0 (fun _ => .response 429 none) (fun _ => 0) 3 ⟨10, 0⟩

/-- C3 counterexample: the terminal error raised once the retry count exceeds
`max_retries` is `requests.HTTPError(f"Request failed after {max_retries}
retries")` (dh_rest.py line 127, gh_rest.py line 163).  Its message names the
attempt count but no endpoint: for a concrete all-429 run the message is
exactly "Request failed after 3 retries", which does not contain the endpoint
string the orchestrator passes ("/v2/repositories/neonvariant/") — the
message is built from `max_retries` alone. -/
theorem C3_counterexample :
    c3run.outcome = .terminal "Request failed after 3 retries" ∧
    strContains "Request failed after 3 retries" "/v2/repositories/neonvariant/"
        = false ∧
    strContains "Request failed after 3 retries" "3" = true := by decide

/-- C3 (amended): on every rate-limit response the executor sleeps the integer
value of the `Retry-After` header when present, else the exponential backoff
value starting at 1 second and doubling on each retry (1, 2, 4, ...); once the
retry count exceeds `max_retries` it raises a terminal error identifying the
attempt count — but not the endpoint. -/
theorem C3_rate_limit_backoff (isRL : Nat → Bool) (extraPre : ℚ)
    (att : Nat → AttemptResult) (dur : Nat → ℚ) (maxRetries : Nat) (c : Clock)
    (st : Nat → Nat) (ra : Nat → Option Nat)
    (hatt : ∀ j, att j = .response (st j) (ra j))
    (hrl : ∀ j, isRL (st j) = true) :
    (make_request isRL extraPre att dur maxRetries c).outcome
        = .terminal ("Request failed after " ++ toString maxRetries ++ " retries") ∧
    (make_request isRL extraPre att dur maxRetries c).sleeps
        = (List.range (maxRetries + 1)).map
            (fun i => match ra i with
                      | some m => (m : ℚ)
                      | none => (2 : ℚ) ^ i) ∧
    (make_request isRL extraPre att dur maxRetries c).trace.length
        = maxRetries + 1 := by
  have key := fun c' => mrLoop_rate_limited isRL att dur maxRetries st ra
    hatt hrl maxRetries (maxRetries + 2) 0 0 1 c' (by omega) (by omega)
  simp only [make_request]
  refine ⟨?_, ?_, ?_⟩
  · rw [(key _).1]
  · rw [(key _).2.1]
    refine List.map_congr_left ?_
    intro i _
    simp only [Nat.zero_add]
    cases ra i <;> simp
  · rw [(key _).2.2]

theorem C3_rate_limit_backoff_witness :
    (make_request ghIsRL 0 (fun _ => .response 403 (some 7)) (fun _ => 0) 2
        ⟨10, 0⟩).outcome = .terminal ("Request failed after " ++ toString 2 ++ " retries") ∧
    (make_request ghIsRL 0 (fun _ => .response 403 (some 7)) (fun _ => 0) 2
        ⟨10, 0⟩).sleeps
      = (List.range (2 + 1)).map
          (fun i => match (fun _ : Nat => some 7) i with
                    | some m => (m : ℚ)
                    | none => (2 : ℚ) ^ i) ∧
    (make_request ghIsRL 0 (fun _ => .response 403 (some 7)) (fun _ => 0) 2
        ⟨10, 0⟩).trace.length = 2 + 1 :=
  C3_rate_limit_backoff ghIsRL 0 (fun _ => .response 403 (some 7)) (fun _ => 0)
    2 ⟨10, 0⟩ (fun _ => 403) (fun _ => some 7) (fun _ => rfl)
    (fun _ => (by decide : ghIsRL 403 = true))

/-- The concrete run refuting C7: both attempts fail at transport level. -/
def c7run : MrResult :=
  make_request dhIsRL 0 (fun _ => .transportError) (fun _ => 0) 1 ⟨10, 0⟩

/-- C7 counterexample: two attempts are made (starting at times 10 and 11) and
both fail at transport level, yet `last_request_time` still holds its initial
value 0 afterwards — `self.last_request_time = time.time()` is only executed
after `session.request` returns, so transport-failing attempts never update
it, contrary to the claim that it is updated after every attempt. -/
theorem C7_counterexample :
    c7run.outcome = .raisedTransport ∧
    c7run.trace = [⟨10, 10, false⟩, ⟨11, 11, false⟩] ∧
    c7run.clock.last_request_time = 0 := by
  norm_num [c7run, make_request, mrLoop, sleep_between_requests]

/-- C7 (amended): after a `_make_request` call, `last_request_time` equals the
end time of the most recent attempt that received an HTTP response (of any
status) — and keeps its previous value when no attempt received a response;
transport-level failures, where `session.request` raises before line
`self.last_request_time = time.time()`, do not update it. -/
theorem C7_last_request_time (isRL : Nat → Bool) (extraPre : ℚ)
    (att : Nat → AttemptResult) (dur : Nat → ℚ) (maxRetries : Nat) (c : Clock) :
    (make_request isRL extraPre att dur maxRetries c).clock.last_request_time
      = lastRespFinish c.last_request_time
          (make_request isRL extraPre att dur maxRetries c).trace := by
  simp only [make_request]
  rw [mrLoop_last_request_time]
  simp [sleep_between_requests_last]

/-- The concrete run refuting C8: the first attempt is answered 429 with
`Retry-After: 0`, so the retry sleeps zero seconds. -/
def c8run : MrResult :=
  make_request dhIsRL 0
    (fun k => if k = 0 then .response 429 (some 0) else .response 200 none)
    (fun _ => 0) 3 ⟨10, 0⟩

/-- C8 counterexample: a 429 response carrying `Retry-After: 0` makes the
retry sleep `int("0") = 0` seconds, and `_sleep_between_requests` runs only
once per `_make_request` call, so the two consecutive attempts of this run
both start at time 10 — less than `min_sleep_time = 0.5` apart, contrary to
the claim. -/
theorem C8_counterexample :
    c8run.trace.map AttemptRec.start = [10, 10] ∧
    c8run.outcome = .success 1 200 ∧
    c8run.sleeps = [0] := by
  norm_num [c8run, make_request, mrLoop, sleep_between_requests, dhIsRL,
    raisesForStatus]

/-- C8 (amended): the minimum-spacing guard protects only the first attempt of
each `_make_request` call: that attempt starts at least `min_sleep_time = 0.5`
seconds after the recorded `last_request_time` (the end of the most recent
attempt that received a response).  Retry attempts within a call are spaced by
the `Retry-After` or backoff wait instead, which a `Retry-After: 0` header can
make smaller than 0.5 seconds. -/
theorem C8_first_attempt_spacing (isRL : Nat → Bool) (extraPre : ℚ)
    (att : Nat → AttemptResult) (dur : Nat → ℚ) (maxRetries : Nat) (c : Clock)
    (hextra : 0 ≤ extraPre) (s : ℚ)
    (hs : ((make_request isRL extraPre att dur maxRetries c).trace.head?.map
        AttemptRec.start) = some s) :
    c.last_request_time + 1/2 ≤ s := by
  have hhead := mrLoop_trace_head isRL att dur maxRetries (maxRetries + 2) 0 0 1
    { sleep_between_requests c with
        now := (sleep_between_requests c).now + extraPre }
    (by omega) (by omega)
  simp only [make_request] at hs
  rw [hhead] at hs
  have hnow := sleep_between_requests_now c
  have : s = (sleep_between_requests c).now + extraPre := by
    simpa using hs.symm
  subst this
  linarith

theorem C8_first_attempt_spacing_witness :
    ((make_request dhIsRL 0 (fun _ => .response 200 none) (fun _ => 0) 3
        ⟨10, 0⟩).trace.head?.map AttemptRec.start) = some 10 ∧
    (⟨10, 0⟩ : Clock).last_request_time + 1/2 ≤ 10 :=
  ⟨by norm_num [make_request, mrLoop, sleep_between_requests, dhIsRL,
      raisesForStatus],
    C8_first_attempt_spacing dhIsRL 0 (fun _ => .response 200 none) (fun _ => 0)
      3 ⟨10, 0⟩ le_rfl 10
      (by norm_num [make_request, mrLoop, sleep_between_requests, dhIsRL,
        raisesForStatus])⟩

/-!
## Repository cache (`get_repository` / `get_repo`)

Model of `DockerHubRestApi.get_repository` (dh_rest.py lines 203-228) and
`GitHubRestApi.get_repo` (gh_rest.py lines 322-345).  The network is an oracle
`fetchBody` from the request key to the parsed response body (standing for
`self._make_request('GET', url).json()`); `cache` is the
`self.cached_repositories` dict of `(fetch time, body)` pairs and `now` is
`curr_time = time.time()`.  The returned triple is (returned body, cache after
the call, whether a request was issued).  `get_repo` takes no `use_cache`
parameter in the source — it always consults the cache — and keys the cache by
`f"{owner}/{repo}"` after `get_owner` resolution (modelled by its `owner`
argument, see `get_owner`).
-/

/-- Model of `DockerHubRestApi.get_repository`: return the cached body when
`use_cache` is set, an entry exists and `curr_time - cached_time <
cache_timeout_sec`; otherwise fetch, store `(curr_time, data)` and return the
fresh body. -/
def get_repository {V : Type} (fetchBody : String → V) (cacheTimeoutSec : ℚ)
    (cache : List (String × (ℚ × V))) (repo : String) (useCache : Bool)
    (now : ℚ) : V × List (String × (ℚ × V)) × Bool :=
  let hit : Option V :=
    match useCache, lookupD cache repo with
    | true, some (cachedTime, data) =>
        if now - cachedTime < cacheTimeoutSec then some data else none
    | _, _ => none
  match hit with
  | some data => (data, cache, false)
  | none =>
      let data := fetchBody repo
      (data, dinsert cache repo (now, data), true)

/-- Model of `GitHubRestApi.get_owner` (gh_rest.py lines 309-320): resolve the
owner argument against the instance default, raising `ValueError` when both
are absent. -/
def get_owner (selfOwner owner : Option String) : Except String String :=
  match owner with
  | some o => .ok o
  | none =>
      match selfOwner with
      | some o => .ok o
      | none => .error "Owner must be specified either in method call or during initialization."

/-- Model of `GitHubRestApi.get_repo` for a resolved owner: identical cache
logic but with key `f"{owner}/{repo}"` and no `use_cache` parameter — the
cache is always consulted. -/
def get_repo {V : Type} (fetchBody : String → V) (cacheTimeoutSec : ℚ)
    (cache : List (String × (ℚ × V))) (owner repo : String) (now : ℚ) :
    V × List (String × (ℚ × V)) × Bool :=
  let cacheKey := owner ++ "/" ++ repo
  let hit : Option V :=
    match lookupD cache cacheKey with
    | some (cachedTime, data) =>
        if now - cachedTime < cacheTimeoutSec then some data else none
    | none => none
  match hit with
  | some data => (data, cache, false)
  | none =>
      let data := fetchBody cacheKey
      (data, dinsert cache cacheKey (now, data), true)

/-- C6: cache freshness.  For `get_repository`: a young-enough entry is
returned without a request when `use_cache` is set; with `use_cache` unset, a
missing entry, or an expired entry the body is fetched, stored under the key
with the current timestamp, and returned; hence a fetch at `t₁` followed by a
second call within `cache_timeout_sec` returns the same body with no request,
and a second call at or after expiry fetches fresh.  The same holds of
`get_repo` (which has no `use_cache` flag and always consults its cache). -/
theorem C6_cache_freshness {V : Type} (fetchBody : String → V)
    (cacheTimeoutSec : ℚ) (cache : List (String × (ℚ × V))) (repo : String)
    (t₁ t₂ now : ℚ) (cachedTime : ℚ) (data : V) (owner : String) :
    (lookupD cache repo = some (cachedTime, data) →
        now - cachedTime < cacheTimeoutSec →
        get_repository fetchBody cacheTimeoutSec cache repo true now
          = (data, cache, false)) ∧
    (get_repository fetchBody cacheTimeoutSec cache repo false now
        = (fetchBody repo, dinsert cache repo (now, fetchBody repo), true)) ∧
    (lookupD cache repo = none →
        get_repository fetchBody cacheTimeoutSec cache repo true now
          = (fetchBody repo, dinsert cache repo (now, fetchBody repo), true)) ∧
    (lookupD cache repo = some (cachedTime, data) →
        cacheTimeoutSec ≤ now - cachedTime →
        get_repository fetchBody cacheTimeoutSec cache repo true now
          = (fetchBody repo, dinsert cache repo (now, fetchBody repo), true)) ∧
    (lookupD cache repo = none → t₂ - t₁ < cacheTimeoutSec →
        get_repository fetchBody cacheTimeoutSec
            (get_repository fetchBody cacheTimeoutSec cache repo true t₁).2.1
            repo true t₂
          = (fetchBody repo,
             (get_repository fetchBody cacheTimeoutSec cache repo true t₁).2.1,
             false)) ∧
    (lookupD cache repo = none → cacheTimeoutSec ≤ t₂ - t₁ →
        (get_repository fetchBody cacheTimeoutSec
            (get_repository fetchBody cacheTimeoutSec cache repo true t₁).2.1
            repo true t₂).2.2 = true) ∧
    (lookupD cache (owner ++ "/" ++ repo) = some (cachedTime, data) →
        now - cachedTime < cacheTimeoutSec →
        get_repo fetchBody cacheTimeoutSec cache owner repo now
          = (data, cache, false)) ∧
    (lookupD cache (owner ++ "/" ++ repo) = none →
        get_repo fetchBody cacheTimeoutSec cache owner repo now
          = (fetchBody (owner ++ "/" ++ repo),
             dinsert cache (owner ++ "/" ++ repo)
               (now, fetchBody (owner ++ "/" ++ repo)), true)) := by
  refine ⟨?_, ?_, ?_, ?_, ?_, ?_, ?_, ?_⟩
  · intro hl hy
    simp [get_repository, hl, hy]
  · simp [get_repository]
  · intro hl
    simp [get_repository, hl]
  · intro hl hy
    simp [get_repository, hl, not_lt.mpr hy]
  · intro hl hy
    have h₁ : get_repository fetchBody cacheTimeoutSec cache repo true t₁
        = (fetchBody repo, dinsert cache repo (t₁, fetchBody repo), true) := by
      simp [get_repository, hl]
    rw [h₁]
    simp [get_repository, lookupD_dinsert_self, hy]
  · intro hl hy
    have h₁ : get_repository fetchBody cacheTimeoutSec cache repo true t₁
        = (fetchBody repo, dinsert cache repo (t₁, fetchBody repo), true) := by
      simp [get_repository, hl]
    rw [h₁]
    simp [get_repository, lookupD_dinsert_self, not_lt.mpr hy]
  · intro hl hy
    simp [get_repo, hl, hy]
  · intro hl
    simp [get_repo, hl]

theorem C6_cache_freshness_witness :
    get_repository (fun _ => (42 : Int)) 300 [("ns/a", (100, 42))] "ns/a" true 150
        = (42, [("ns/a", (100, 42))], false) ∧
    get_repository (fun _ => (42 : Int)) 300 [] "ns/a" true 150
        = (42, [("ns/a", (150, 42))], true) :=
  ⟨(C6_cache_freshness (fun _ => (42 : Int)) 300 [("ns/a", (100, 42))] "ns/a"
      0 0 150 100 42 "o").1 (by simp [lookupD]) (by norm_num),
   (C6_cache_freshness (fun _ => (42 : Int)) 300 [] "ns/a" 0 0 150 100 42 "o").2.2.1
      (by simp [lookupD])⟩

/-!
## Orchestrator fetch loops

Model of the per-repository loop of `src/fetch-dockerhub-stats.py` (lines
32-53) and `src/fetch-github-stats.py` (lines 29-56).  Each iteration runs a
`try` block of accessor calls, any of which may raise; on an exception the
loop prints, stores `{"error": str(e)}` under the repository key and
continues.  Accessor calls made before the raising one have already added
their values into the running totals.

For the Docker Hub script the oracle `fetch` gives, per repository, either
the four fetched values or the point of the first raising call together with
the values returned before it.  For the GitHub script the oracle `data` gives
the repository body the accessors read; the sixth call,
`requester.get_repo_last_pushed(repo=repo)` (fetch-github-stats.py line 41),
always raises `AttributeError` because `GitHubRestApi` defines no method of
that name (gh_rest.py lines 11-440), so the success branch of the `try` block
is unreachable.
-/

/-- A per-repository record of the Docker Hub snapshot: the success shape
built at fetch-dockerhub-stats.py lines 42-47 or the error shape of lines
51-53. -/
inductive DhRecord where
  | stats (pull_count star_count : Int) (description last_updated : String)
  | error (msg : String)
deriving DecidableEq

/-- Outcome of the four accessor calls for one repository in the Docker Hub
loop: all succeed, or the first raising call is `get_repo_pull_count`,
`get_repo_star_count`, `get_repo_description` or `get_repo_last_updated`
(carrying the values already returned before it). -/
inductive DhFetchOutcome where
  | ok (pulls stars : Int) (description last_updated : String)
  | failPull (msg : String)
  | failStar (pulls : Int) (msg : String)
  | failDescription (pulls stars : Int) (msg : String)
  | failLastUpdated (pulls stars : Int) (description : String) (msg : String)
deriving DecidableEq

/-- The record the Docker Hub loop stores for a repository with the given
fetch outcome. -/
def dhRecordOf : DhFetchOutcome → DhRecord
  | .ok p s d l => .stats p s d l
  | .failPull m => .error m
  | .failStar _ m => .error m
  | .failDescription _ _ m => .error m
  | .failLastUpdated _ _ _ m => .error m

/-- Accumulator of the Docker Hub loop: `new_repositories`, `sum_pulls`,
`sum_stars`. -/
structure DhAcc where
  repositories : List (String × DhRecord)
  sum_pulls : Int
  sum_stars : Int
deriving DecidableEq

/-- One iteration of the Docker Hub loop: values returned before the first
raising call are already added into the sums (`sum_pulls += pull_count`
precedes `get_repo_star_count`, and so on). -/
def dhStep (fetch : String → DhFetchOutcome) (acc : DhAcc) (repo : String) :
    DhAcc :=
  match fetch repo with
  | .ok p s d l =>
      ⟨dinsert acc.repositories repo (.stats p s d l),
        acc.sum_pulls + p, acc.sum_stars + s⟩
  | .failPull m =>
      ⟨dinsert acc.repositories repo (.error m), acc.sum_pulls, acc.sum_stars⟩
  | .failStar p m =>
      ⟨dinsert acc.repositories repo (.error m), acc.sum_pulls + p, acc.sum_stars⟩
  | .failDescription p s m =>
      ⟨dinsert acc.repositories repo (.error m),
        acc.sum_pulls + p, acc.sum_stars + s⟩
  | .failLastUpdated p s _ m =>
      ⟨dinsert acc.repositories repo (.error m),
        acc.sum_pulls + p, acc.sum_stars + s⟩

/-- The Docker Hub loop from a given accumulator. -/
def dhRunFrom (fetch : String → DhFetchOutcome) (acc : DhAcc) :
    List String → DhAcc
  | [] => acc
  | repo :: rest => dhRunFrom fetch (dhStep fetch acc repo) rest

/-- The full Docker Hub loop (`new_repositories = {}`, `sum_pulls = 0`,
`sum_stars = 0`). -/
def dhRun (fetch : String → DhFetchOutcome) (repos : List String) : DhAcc :=
  dhRunFrom fetch ⟨[], 0, 0⟩ repos

/-- The totals dict built at fetch-dockerhub-stats.py lines 56-59. -/
def dhTotals (acc : DhAcc) : List (String × Int) :=
  [("total_pulls", acc.sum_pulls), ("total_stars", acc.sum_stars)]

/-- A per-repository record of the GitHub snapshot: the success shape of
fetch-github-stats.py lines 43-50 (never built, see `ghStep`) or the error
shape of lines 54-56. -/
inductive GhRecord where
  | stats (stars forks watchers open_issues : Int)
      (description last_updated : String)
  | error (msg : String)
deriving DecidableEq

/-- The repository body read by the GitHub accessor methods
(`stargazers_count`, `forks_count`, `watchers_count`, `open_issues_count`,
`description` with their `.get` defaults). -/
structure GhRepoData where
  stargazers_count : Int
  forks_count : Int
  watchers_count : Int
  open_issues_count : Int
  description : String
deriving DecidableEq

/-- The message of the `AttributeError` raised by
`requester.get_repo_last_pushed(repo=repo)`: `GitHubRestApi` defines no
method of that name, so Python raises
`AttributeError: 'GitHubRestApi' object has no attribute
'get_repo_last_pushed'` (quotes omitted here).  `str(e)` of that exception is
what the loop stores. -/
def ghAttrErrorMsg : String :=
  "GitHubRestApi object has no attribute get_repo_last_pushed"

/-- Accumulator of the GitHub loop. -/
structure GhAcc where
  repositories : List (String × GhRecord)
  sum_stars : Int
  sum_forks : Int
  sum_watchers : Int
  sum_open_issues : Int
deriving DecidableEq

/-- One iteration of the GitHub loop: the five accessor calls succeed and add
their counts into the sums, then `get_repo_last_pushed` raises
`AttributeError`, so the `except` branch stores an error record — the success
record of lines 43-50 is dead code. -/
def ghStep (data : String → GhRepoData) (owner : String) (acc : GhAcc)
    (repo : String) : GhAcc :=
  let d := data repo
  ⟨dinsert acc.repositories (owner ++ "/" ++ repo) (.error ghAttrErrorMsg),
    acc.sum_stars + d.stargazers_count,
    acc.sum_forks + d.forks_count,
    acc.sum_watchers + d.watchers_count,
    acc.sum_open_issues + d.open_issues_count⟩

/-- The GitHub loop from a given accumulator. -/
def ghRunFrom (data : String → GhRepoData) (owner : String) (acc : GhAcc) :
    List String → GhAcc
  | [] => acc
  | repo :: rest => ghRunFrom data owner (ghStep data owner acc repo) rest

/-- The full GitHub loop. -/
def ghRun (data : String → GhRepoData) (owner : String)
    (repos : List String) : GhAcc :=
  ghRunFrom data owner ⟨[], 0, 0, 0, 0⟩ repos

/-- The totals dict built at fetch-github-stats.py lines 59-64. -/
def ghTotals (acc : GhAcc) : List (String × Int) :=
  [("total_stars", acc.sum_stars), ("total_forks", acc.sum_forks),
   ("total_watchers", acc.sum_watchers),
   ("total_open_issues", acc.sum_open_issues)]

theorem dhRunFrom_lookup (fetch : String → DhFetchOutcome) :
    ∀ (repos : List String) (acc : DhAcc) (r : String),
      (r ∈ repos ∨ lookupD acc.repositories r = some (dhRecordOf (fetch r))) →
      lookupD (dhRunFrom fetch acc repos).repositories r
        = some (dhRecordOf (fetch r)) := by
  intro repos
  induction repos with
  | nil =>
      intro acc r h
      rcases h with h | h
      · cases h
      · simpa [dhRunFrom] using h
  | cons repo rest ih =>
      intro acc r h
      by_cases hr : r = repo
      · subst hr
        refine ih (dhStep fetch acc r) r (Or.inr ?_)
        cases hf : fetch r <;>
          simp [dhStep, hf, dhRecordOf, lookupD_dinsert_self]
      · rcases h with h | h
        · rcases List.mem_cons.mp h with h' | h'
          · exact absurd h' hr
          · exact ih _ r (Or.inl h')
        · refine ih (dhStep fetch acc repo) r (Or.inr ?_)
          cases hf : fetch repo <;>
            simp [dhStep, hf, lookupD_dinsert_ne _ _ _ _ hr, h]

theorem ghRunFrom_lookup (data : String → GhRepoData) (owner : String) :
    ∀ (repos : List String) (acc : GhAcc) (r : String),
      (r ∈ repos ∨ lookupD acc.repositories (owner ++ "/" ++ r)
          = some (.error ghAttrErrorMsg)) →
      lookupD (ghRunFrom data owner acc repos).repositories (owner ++ "/" ++ r)
        = some (.error ghAttrErrorMsg) := by
  intro repos
  induction repos with
  | nil =>
      intro acc r h
      rcases h with h | h
      · cases h
      · simpa [ghRunFrom] using h
  | cons repo rest ih =>
      intro acc r h
      by_cases hr : owner ++ "/" ++ r = owner ++ "/" ++ repo
      · refine ih (ghStep data owner acc repo) r (Or.inr ?_)
        rw [hr]
        simp [ghStep, lookupD_dinsert_self]
      · rcases h with h | h
        · rcases List.mem_cons.mp h with h' | h'
          · exact absurd (by rw [h']) hr
          · exact ih _ r (Or.inl h')
        · refine ih (ghStep data owner acc repo) r (Or.inr ?_)
          simp [ghStep, lookupD_dinsert_ne _ _ _ _ hr, h]

theorem ghRunFrom_sums (data : String → GhRepoData) (owner : String) :
    ∀ (repos : List String) (acc : GhAcc),
      (ghRunFrom data owner acc repos).sum_stars
          = acc.sum_stars + (repos.map (fun r => (data r).stargazers_count)).sum ∧
      (ghRunFrom data owner acc repos).sum_forks
          = acc.sum_forks + (repos.map (fun r => (data r).forks_count)).sum ∧
      (ghRunFrom data owner acc repos).sum_watchers
          = acc.sum_watchers + (repos.map (fun r => (data r).watchers_count)).sum ∧
      (ghRunFrom data owner acc repos).sum_open_issues
          = acc.sum_open_issues
              + (repos.map (fun r => (data r).open_issues_count)).sum := by
  intro repos
  induction repos with
  | nil => intro acc; simp [ghRunFrom]
  | cons repo rest ih =>
      intro acc
      have h := ih (ghStep data owner acc repo)
      simp only [ghRunFrom, List.map_cons, List.sum_cons]
      refine ⟨?_, ?_, ?_, ?_⟩
      · rw [h.1]; simp [ghStep, add_assoc]
      · rw [h.2.1]; simp [ghStep, add_assoc]
      · rw [h.2.2.1]; simp [ghStep, add_assoc]
      · rw [h.2.2.2]; simp [ghStep, add_assoc]

/-- C9: per-resource failure isolation.  In the Docker Hub loop, every
repository of the input list ends up with an entry in the written snapshot:
the success record when its accessor calls succeed and `{"error": message}`
when one of them raises; a failing repository aborts neither the remaining
iterations nor the snapshot-writing step (`writeStats` is a total function of
the loop's results).  The GitHub loop likewise gives every repository an
entry (always an error entry, see C10). -/
theorem C9_per_resource_isolation :
    (∀ (fetch : String → DhFetchOutcome) (repos : List String)
       (prev : Option (Snapshot DhRecord)) (now : String) (r : String),
       r ∈ repos →
       lookupD (writeStats prev (dhRun fetch repos).repositories
           (dhTotals (dhRun fetch repos)) now).repositories r
         = some (dhRecordOf (fetch r))) ∧
    (∀ (fetch : String → DhFetchOutcome) (repos : List String) (r : String)
       (m : String), r ∈ repos → fetch r = .failStar 7 m →
       lookupD (dhRun fetch repos).repositories r = some (.error m)) ∧
    (∀ (data : String → GhRepoData) (owner : String) (repos : List String)
       (prev : Option (Snapshot GhRecord)) (now : String) (r : String),
       r ∈ repos →
       lookupD (writeStats prev (ghRun data owner repos).repositories
           (ghTotals (ghRun data owner repos)) now).repositories
           (owner ++ "/" ++ r)
         = some (.error ghAttrErrorMsg)) := by
  refine ⟨?_, ?_, ?_⟩
  · intro fetch repos prev now r hr
    simp only [writeStats]
    exact dhRunFrom_lookup fetch repos ⟨[], 0, 0⟩ r (Or.inl hr)
  · intro fetch repos r m hr hf
    have := dhRunFrom_lookup fetch repos ⟨[], 0, 0⟩ r (Or.inl hr)
    rw [hf] at this
    simpa [dhRecordOf] using this
  · intro data owner repos prev now r hr
    simp only [writeStats]
    exact ghRunFrom_lookup data owner repos ⟨[], 0, 0, 0, 0⟩ r (Or.inl hr)

theorem C9_per_resource_isolation_witness :
    lookupD (writeStats none
        (dhRun (fun r => if r = "ns/a" then .ok 5 1 "d" "t" else .failStar 7 "boom")
          ["ns/a", "ns/b"]).repositories
        (dhTotals (dhRun
          (fun r => if r = "ns/a" then .ok 5 1 "d" "t" else .failStar 7 "boom")
          ["ns/a", "ns/b"])) "T0").repositories "ns/b"
      = some (.error "boom") := by
  have h := (C9_per_resource_isolation).1
    (fun r => if r = "ns/a" then .ok 5 1 "d" "t" else .failStar 7 "boom")
    ["ns/a", "ns/b"] none "T0" "ns/b" (by simp)
  simpa [dhRecordOf] using h

/-- C10: the GitHub orchestrator's `try` block always raises at
`requester.get_repo_last_pushed(repo=repo)` (no such method exists on
`GitHubRestApi`), so every repository's entry in the output snapshot is an
error record — yet the star, fork, watcher and open-issue counts fetched by
the five calls before it are still added into the totals, which therefore
reflect repositories whose records are error records. -/
theorem C10_last_pushed_attribute_error (data : String → GhRepoData)
    (owner : String) (repos : List String) :
    (∀ r ∈ repos,
        lookupD (ghRun data owner repos).repositories (owner ++ "/" ++ r)
          = some (.error ghAttrErrorMsg)) ∧
    ghTotals (ghRun data owner repos)
      = [("total_stars", (repos.map (fun r => (data r).stargazers_count)).sum),
         ("total_forks", (repos.map (fun r => (data r).forks_count)).sum),
         ("total_watchers", (repos.map (fun r => (data r).watchers_count)).sum),
         ("total_open_issues",
            (repos.map (fun r => (data r).open_issues_count)).sum)] := by
  constructor
  · intro r hr
    exact ghRunFrom_lookup data owner repos ⟨[], 0, 0, 0, 0⟩ r (Or.inl hr)
  · have h := ghRunFrom_sums data owner repos ⟨[], 0, 0, 0, 0⟩
    simp only [ghTotals, ghRun, h.1, h.2.1, h.2.2.1, h.2.2.2]
    norm_num

theorem C10_last_pushed_attribute_error_witness :
    lookupD (ghRun (fun _ => ⟨3, 1, 2, 4, "d"⟩) "chase-roohms"
        ["docker-stats"]).repositories "chase-roohms/docker-stats"
      = some (.error ghAttrErrorMsg) ∧
    ghTotals (ghRun (fun _ => ⟨3, 1, 2, 4, "d"⟩) "chase-roohms" ["docker-stats"])
      = [("total_stars", 3), ("total_forks", 1), ("total_watchers", 2),
         ("total_open_issues", 4)] := by
  have h := C10_last_pushed_attribute_error (fun _ => ⟨3, 1, 2, 4, "d"⟩)
    "chase-roohms" ["docker-stats"]
  exact ⟨h.1 "docker-stats" (by simp), by simpa using h.2⟩

/-!
## URL handling

Models of the string operations the paginators apply to "next" links:

* `urlPathQuery` embeds the Docker Hub normalization of dh_rest.py lines
  183-186: `parsed = urlparse(url); url = parsed.path + ('?' + parsed.query if
  parsed.query else '')` — drop everything through the first `://` and then
  through the end of the host, drop a `#fragment`, and keep the path plus a
  non-empty query;
* `startsHttp` embeds `url.startswith('http')` (dh_rest.py line 183);
* `lstripSlash` embeds `endpoint.lstrip('/')` and `urljoinModel` embeds
  `urljoin(base_url, ...)` on the URL shapes occurring here: an input with a
  `scheme://` is returned unchanged, a host-relative path is appended to the
  base (dh_rest.py line 79, gh_rest.py line 112).

Characters are processed as `String.data` lists.
-/

/-- Drop everything up to and including the first occurrence of `://`. -/
def dropThroughSchemeSep : List Char → List Char
  | ':' :: '/' :: '/' :: rest => rest
  | _ :: rest => dropThroughSchemeSep rest
  | [] => []

/-- Whether the character list contains `://` (how `urljoinModel` recognises
an absolute URL). -/
def hasSchemeSep : List Char → Bool
  | ':' :: '/' :: '/' :: _ => true
  | _ :: rest => hasSchemeSep rest
  | [] => false

/-- Model of `urlparse(url).path + ('?' + query if query else '')` for an
absolute URL: strip `scheme://host`, drop any `#fragment`, keep the path and
a non-empty query. -/
def urlPathQuery (s : String) : String :=
  let afterHost := (dropThroughSchemeSep s.data).dropWhile (· != '/')
  let noFrag := afterHost.takeWhile (· != '#')
  let path := noFrag.takeWhile (· != '?')
  let query := (noFrag.dropWhile (· != '?')).drop 1
  ⟨if query.isEmpty then path else path ++ '?' :: query⟩

/-- Model of `url.startswith('http')`. -/
def startsHttp (s : String) : Bool :=
  match s.data with
  | 'h' :: 't' :: 't' :: 'p' :: _ => true
  | _ => false

/-- The Docker Hub paginator's treatment of a "next" link (dh_rest.py lines
183-186): normalize to path+query when the URL is absolute, keep it as is
otherwise. -/
def dhNorm (url : String) : String :=
  if startsHttp url then urlPathQuery url else url

/-- Model of `endpoint.lstrip('/')`. -/
def lstripSlash (s : String) : String := ⟨s.data.dropWhile (· == '/')⟩

/-- Model of `urljoin(base, rel)` on the URL shapes this client produces: an
absolute `rel` (containing `://`) wins outright; otherwise `rel` is a
host-relative path appended to the scheme-and-host base. -/
def urljoinModel (base rel : String) : String :=
  if hasSchemeSep rel.data then rel else base ++ "/" ++ rel

/-- Model of the URL constructed by `_make_request` (gh_rest.py lines
111-112, identically dh_rest.py line 79):
`urljoin(self.base_url, endpoint.lstrip('/'))`. -/
def ghRequestUrl (baseUrl endpoint : String) : String :=
  urljoinModel baseUrl (lstripSlash endpoint)

theorem dropThroughSchemeSep_https (l : List Char) :
    dropThroughSchemeSep ('h' :: 't' :: 't' :: 'p' :: 's' :: ':' :: '/' :: '/' :: l)
      = l := rfl

theorem hasSchemeSep_https (l : List Char) :
    hasSchemeSep ('h' :: 't' :: 't' :: 'p' :: 's' :: ':' :: '/' :: '/' :: l)
      = true := rfl

theorem startsHttp_https (rest : String) :
    startsHttp ("https://" ++ rest) = true := by
  have h : ("https://" ++ rest).data
      = 'h' :: 't' :: 't' :: 'p' :: 's' :: ':' :: '/' :: '/' :: rest.data := by
    have h8 : "https://".data
        = ['h', 't', 't', 'p', 's', ':', '/', '/'] := rfl
    rw [String.data_append, h8]
    rfl
  simp [startsHttp, h]

theorem dropWhile_append_of_all {p : Char → Bool} {l₁ l₂ : List Char}
    (h : ∀ c ∈ l₁, p c = true) :
    (l₁ ++ l₂).dropWhile p = l₂.dropWhile p := by
  induction l₁ with
  | nil => rfl
  | cons c t ih =>
      simp only [List.cons_append, List.dropWhile_cons, h c (by simp)]
      exact ih fun c hc => h c (by simp [hc])

theorem takeWhile_append_of_all {p : Char → Bool} {l₁ l₂ : List Char}
    (h : ∀ c ∈ l₁, p c = true) :
    (l₁ ++ l₂).takeWhile p = l₁ ++ l₂.takeWhile p := by
  induction l₁ with
  | nil => rfl
  | cons c t ih =>
      simp only [List.cons_append, List.takeWhile_cons, h c (by simp)]
      simp [ih fun c hc => h c (by simp [hc])]

theorem takeWhile_of_all {p : Char → Bool} {l : List Char}
    (h : ∀ c ∈ l, p c = true) : l.takeWhile p = l := by
  induction l with
  | nil => rfl
  | cons c t ih =>
      simp only [List.takeWhile_cons, h c (by simp)]
      simp [ih fun c hc => h c (by simp [hc])]

theorem urlPathQuery_spec (host path q : String)
    (hhost : ∀ c ∈ host.data, c ≠ '/')
    (hpath : ∀ c ∈ path.data, c ≠ '?' ∧ c ≠ '#')
    (hq : ∀ c ∈ q.data, c ≠ '#') (hqne : q.data ≠ []) :
    urlPathQuery ("https://" ++ host ++ "/" ++ path ++ "?" ++ q)
      = "/" ++ path ++ "?" ++ q := by
  have hdata : ("https://" ++ host ++ "/" ++ path ++ "?" ++ q).data
      = 'h' :: 't' :: 't' :: 'p' :: 's' :: ':' :: '/' :: '/' ::
          (host.data ++ '/' :: (path.data ++ '?' :: q.data)) := by
    simp only [String.data_append]
    simp
  have hrhs : ("/" ++ path ++ "?" ++ q).data
      = '/' :: (path.data ++ '?' :: q.data) := by
    simp only [String.data_append]
    simp
  refine String.ext ?_
  rw [hrhs]
  show (let afterHost :=
      (dropThroughSchemeSep
        ("https://" ++ host ++ "/" ++ path ++ "?" ++ q).data).dropWhile (· != '/')
    let noFrag := afterHost.takeWhile (· != '#')
    let pth := noFrag.takeWhile (· != '?')
    let query := (noFrag.dropWhile (· != '?')).drop 1
    if query.isEmpty then pth else pth ++ '?' :: query)
      = '/' :: (path.data ++ '?' :: q.data)
  rw [hdata, dropThroughSchemeSep_https]
  have hAfter : ((host.data ++ '/' :: (path.data ++ '?' :: q.data)).dropWhile
      (· != '/')) = '/' :: (path.data ++ '?' :: q.data) := by
    rw [dropWhile_append_of_all
      (fun c hc => by simpa using hhost c hc)]
    simp [List.dropWhile_cons]
  have hNoFrag : (('/' :: (path.data ++ '?' :: q.data)).takeWhile (· != '#'))
      = '/' :: (path.data ++ '?' :: q.data) := by
    refine takeWhile_of_all ?_
    intro c hc
    rcases List.mem_cons.mp hc with rfl | hc
    · decide
    · rcases List.mem_append.mp hc with hc | hc
      · simpa using (hpath c hc).2
      · rcases List.mem_cons.mp hc with rfl | hc
        · decide
        · simpa using hq c hc
  have hPath : (('/' :: (path.data ++ '?' :: q.data)).takeWhile (· != '?'))
      = '/' :: path.data := by
    simp only [List.takeWhile_cons]
    norm_num
    rw [takeWhile_append_of_all (fun c hc => by simpa using (hpath c hc).1)]
    simp [List.takeWhile_cons]
  have hQuery : ((('/' :: (path.data ++ '?' :: q.data)).dropWhile (· != '?')).drop 1)
      = q.data := by
    simp only [List.dropWhile_cons]
    norm_num
    rw [dropWhile_append_of_all (fun c hc => by simpa using (hpath c hc).1)]
    simp [List.dropWhile_cons]
  simp only [hAfter, hNoFrag, hPath, hQuery]
  have : q.data.isEmpty = false := by
    cases hd : q.data with
    | nil => exact absurd hd hqne
    | cons a l => rfl
  simp [this]

/-!
## Link-header parsing and pagination

Model of the `Link`-header loop of `GitHubRestApi._paginated_request`
(gh_rest.py lines 260-275):

    links = {}
    for link in link_header.split(','):
        url_part, rel_part = link.split(';')
        url = url_part.strip()[1:-1]
        rel = rel_part.split('=')[1].strip('"')
        links[rel] = url
    next_url = links.get('next')

`splitOnChar` embeds single-character `str.split`, `trimSpaces` embeds
`str.strip()` (header fragments here contain only space whitespace),
`stripChar '"'` embeds `str.strip('"')`, and `[1:-1]` is `drop 1` plus
`dropLast`.  The source's two-element unpacking `url_part, rel_part =
link.split(';')` raises on malformed fragments; the model takes the first two
parts, which agrees with the source on every well-formed header.
-/

/-- Model of Python's `str.split(sep)` for a single-character separator
(`"".split(sep) == [""]`, `"a,b".split(",") == ["a", "b"]`). -/
def splitOnChar (sep : Char) : List Char → List (List Char)
  | [] => [[]]
  | c :: rest =>
      if c = sep then [] :: splitOnChar sep rest
      else
        match splitOnChar sep rest with
        | [] => [[c]]
        | g :: gs => (c :: g) :: gs

/-- Model of `str.strip()` on space-whitespace. -/
def trimSpaces (l : List Char) : List Char :=
  ((l.dropWhile (· == ' ')).reverse.dropWhile (· == ' ')).reverse

/-- Model of `str.strip(ch)` for one character. -/
def stripChar (ch : Char) (l : List Char) : List Char :=
  ((l.dropWhile (· == ch)).reverse.dropWhile (· == ch)).reverse

/-- Model of the `Link`-header loop above: the `links` dict (`links[rel] =
url` insertion, later relations overwriting earlier ones), guarded by the
source's `if link_header:` emptiness test. -/
def parseLinkHeader (linkHeader : String) : List (String × String) :=
  if linkHeader.data.isEmpty then []
  else
    ((splitOnChar ',' linkHeader.data).map fun link =>
      let parts := splitOnChar ';' link
      let url := ((trimSpaces (parts.headD [])).drop 1).dropLast
      let rel := stripChar '"' ((splitOnChar '=' (parts.getD 1 [])).getD 1 [])
      ((⟨rel⟩ : String), (⟨url⟩ : String))).foldl
      (fun m p => dinsert m p.1 p.2) []

/-- A page response as the GitHub paginator consumes it: the parsed JSON body
(a list of items, or a single object for non-list endpoints) and the raw
`Link` header (`response.headers.get('Link', '')`). -/
structure GhResponse (α : Type) where
  body : List α ⊕ α
  linkHeader : String
deriving DecidableEq

/-- The items one page contributes: each element of a list body, or the
object itself (`yield data`) otherwise. -/
def ghItemsOf {α : Type} (r : GhResponse α) : List α :=
  match r.body with
  | .inl l => l
  | .inr x => [x]

/-- `next_url = links.get('next')`. -/
def ghNextOf {α : Type} (r : GhResponse α) : Option String :=
  lookupD (parseLinkHeader r.linkHeader) "next"

/-- The `while` guard's page cap: `max_pages is None or current_page <
max_pages` (gh_rest.py line 242), with `current_page` counting pages already
fetched. -/
def underCap (maxPages : Option Nat) (currentPage : Nat) : Bool :=
  match maxPages with
  | none => true
  | some m => currentPage < m

/-- The `while next_url and (...)` loop of `_paginated_request` (gh_rest.py
lines 242-275): fetch the next URL (passing `params` only on the first page),
yield the page's items, and follow the parsed `Link rel="next"` — which is
passed to `_make_request` unchanged.  `fetch` stands for
`self._make_request('GET', next_url, ...)` followed by `.json()` and the
header read; the structural `fuel` bounds the recursion and is immaterial for
any finite chain (see `ghPages_chain`). -/
def ghPages {α : Type} (fetch : String → Option (List (String × String)) → GhResponse α)
    (maxPages : Option Nat) :
    Nat → Nat → String → Option (List (String × String)) → List α
  | 0, _, _, _ => []
  | fuel + 1, currentPage, nextUrl, params =>
      if underCap maxPages currentPage then
        let response := fetch nextUrl params
        ghItemsOf response ++
          (match ghNextOf response with
           | none => []
           | some u => ghPages fetch maxPages fuel (currentPage + 1) u none)
      else []

/-- `params.setdefault('per_page', 100)` on `params or {}` (gh_rest.py lines
233-237); Python's `setdefault` appends the new key at the end. -/
def withPerPageDefault (params : Option (List (String × String))) :
    List (String × String) :=
  let ps := params.getD []
  if lookupD ps "per_page" = none then ps ++ [("per_page", "100")] else ps

/-- Model of `get_paginated` (gh_rest.py lines 277-294):
`list(self._paginated_request(endpoint, params, max_pages))`. -/
def get_paginated {α : Type}
    (fetch : String → Option (List (String × String)) → GhResponse α)
    (endpoint : String) (params : Option (List (String × String)))
    (maxPages : Option Nat) (fuel : Nat) : List α :=
  ghPages fetch maxPages fuel 0 endpoint (some (withPerPageDefault params))

/-- A page of the Docker Hub repository listing: `data.get('results', [])`
and `data.get('next')`. -/
structure DhPage (α : Type) where
  results : List α
  next : Option String
deriving DecidableEq

/-- The `while url:` loop of `get_all_repos_for_namespace` (dh_rest.py lines
171-187): fetch, extend with `results`, follow `next` — normalized to
path+query when absolute.  `fetch` stands for
`self._make_request('GET', url).json()`. -/
def dhPagesLoop {α : Type} (fetch : String → DhPage α) : Nat → String → List α
  | 0, _ => []
  | fuel + 1, url =>
      let data := fetch url
      data.results ++
        (match data.next with
         | none => []
         | some u => dhPagesLoop fetch fuel (dhNorm u))

/-- Model of `get_all_repos_for_namespace` (dh_rest.py lines 156-201), whose
start URL is `f"/v2/repositories/{namespace}/"`; the post-loop caching of the
collected repositories (lines 192-199) does not affect the returned list. -/
def get_all_repos_for_namespace {α : Type} (fetch : String → DhPage α)
    (ns : String) (fuel : Nat) : List α :=
  dhPagesLoop fetch fuel ("/v2/repositories/" ++ ns ++ "/")

/-- A finite chain of GitHub pages: each page is what `fetch` returns for its
URL (`params` on the first page, `None` afterwards), every page's parsed
`Link rel="next"` is the next entry's URL, and the last page has none. -/
def ghChainB {α : Type} [DecidableEq α]
    (fetch : String → Option (List (String × String)) → GhResponse α) :
    Option (List (String × String)) → List (String × GhResponse α) → Bool
  | _, [] => true
  | params, (u, r) :: rest =>
      (fetch u params == r) &&
      (match ghNextOf r, rest with
       | none, [] => true
       | some u', (v, _) :: _ => u' == v
       | _, _ => false) &&
      ghChainB fetch none rest

/-- The concatenation of all chain pages' items, in page order. -/
def ghChainItems {α : Type} (ch : List (String × GhResponse α)) : List α :=
  (ch.map (fun p => ghItemsOf p.2)).flatten

/-- How many chain pages the cap lets through from the current page count. -/
def capRem (maxPages : Option Nat) (currentPage n : Nat) : Nat :=
  match maxPages with
  | none => n
  | some m => m - currentPage

/-- A finite chain of Docker Hub pages: each page is what `fetch` returns for
its URL, every page's `next` — normalized by `dhNorm` exactly as the loop
normalizes it — is the next entry's URL, and the last page has none. -/
def dhChainB {α : Type} [DecidableEq α] (fetch : String → DhPage α) :
    List (String × DhPage α) → Bool
  | [] => true
  | (u, p) :: rest =>
      (fetch u == p) &&
      (match p.next, rest with
       | none, [] => true
       | some v, (u', _) :: _ => dhNorm v == u'
       | _, _ => false) &&
      dhChainB fetch rest

/-- The concatenation of all Docker Hub chain pages' results, in page
order. -/
def dhChainItems {α : Type} (ch : List (String × DhPage α)) : List α :=
  (ch.map (fun p => p.2.results)).flatten


theorem ghChainB_cons {α : Type} [DecidableEq α]
    (fetch : String → Option (List (String × String)) → GhResponse α)
    (params : Option (List (String × String))) (u : String)
    (r : GhResponse α) (rest : List (String × GhResponse α)) :
    ghChainB fetch params ((u, r) :: rest) = true ↔
      fetch u params = r ∧
      (match ghNextOf r, rest with
       | none, [] => True
       | some u', (v, _) :: _ => u' = v
       | _, _ => False) ∧
      ghChainB fetch none rest = true := by
  rcases hn : ghNextOf r with _ | u' <;>
    rcases rest with _ | ⟨⟨v, r'⟩, rest⟩ <;>
      simp [ghChainB, hn, Bool.and_eq_true, and_assoc]

theorem dhChainB_cons {α : Type} [DecidableEq α] (fetch : String → DhPage α)
    (u : String) (p : DhPage α) (rest : List (String × DhPage α)) :
    dhChainB fetch ((u, p) :: rest) = true ↔
      fetch u = p ∧
      (match p.next, rest with
       | none, [] => True
       | some v, (u', _) :: _ => dhNorm v = u'
       | _, _ => False) ∧
      dhChainB fetch rest = true := by
  rcases hn : p.next with _ | v <;>
    rcases rest with _ | ⟨⟨u', p'⟩, rest⟩ <;>
      simp [dhChainB, hn, Bool.and_eq_true, and_assoc]

theorem ghPages_chain {α : Type} [DecidableEq α]
    (fetch : String → Option (List (String × String)) → GhResponse α)
    (mp : Option Nat) :
    ∀ (rest : List (String × GhResponse α)) (u : String) (r : GhResponse α)
      (fuel currentPage : Nat) (params : Option (List (String × String))),
      ghChainB fetch params ((u, r) :: rest) = true → rest.length < fuel →
      ghPages fetch mp fuel currentPage u params
        = ghChainItems
            (((u, r) :: rest).take (capRem mp currentPage (rest.length + 1))) := by
  intro rest
  induction rest with
  | nil =>
      intro u r fuel currentPage params hch hf
      obtain ⟨f, rfl⟩ : ∃ f, fuel = f + 1 := ⟨fuel - 1, by omega⟩
      obtain ⟨hfetch, hmatch, -⟩ := (ghChainB_cons fetch params u r []).mp hch
      have hnext : ghNextOf r = none := by
        rcases hn : ghNextOf r with _ | u'
        · rfl
        · rw [hn] at hmatch
          exact absurd hmatch (by simp)
      cases mp with
      | none =>
          simp [ghPages, underCap, hfetch, hnext, capRem, ghChainItems]
      | some m =>
          by_cases hcap : currentPage < m
          · have hone : ([(u, r)]).length
                ≤ capRem (some m) currentPage (([] : List (String × GhResponse α)).length + 1) := by
              simp only [capRem, List.length_cons, List.length_nil]; omega
            rw [List.take_of_length_le hone]
            simp [ghPages, underCap, hcap, hfetch, hnext, ghChainItems]
          · have hc : m - currentPage = 0 := by omega
            simp [ghPages, underCap, hcap, capRem, hc, ghChainItems]
  | cons hd rest ih =>
      intro u r fuel currentPage params hch hf
      obtain ⟨v, r'⟩ := hd
      obtain ⟨f, rfl⟩ : ∃ f, fuel = f + 1 := ⟨fuel - 1, by omega⟩
      obtain ⟨hfetch, hmatch, hrest⟩ :=
        (ghChainB_cons fetch params u r ((v, r') :: rest)).mp hch
      have hnext : ghNextOf r = some v := by
        rcases hn : ghNextOf r with _ | u'
        · rw [hn] at hmatch
          exact absurd hmatch (by simp)
        · rw [hn] at hmatch
          simp only at hmatch
          rw [hmatch]
      have hrec := ih v r' f (currentPage + 1) none hrest (by simpa using hf)
      cases mp with
      | none =>
          simp only [ghPages, underCap, hfetch, hnext]
          rw [hrec]
          simp only [capRem]
          rw [List.take_of_length_le (by simp),
            List.take_of_length_le (by simp)]
          simp [ghChainItems]
      | some m =>
          by_cases hcap : currentPage < m
          · have hk : capRem (some m) currentPage (((v, r') :: rest).length + 1)
                = capRem (some m) (currentPage + 1) (rest.length + 1) + 1 := by
              simp only [capRem, List.length_cons]; omega
            rw [hk]
            simp only [ghPages, underCap, hfetch, hnext]
            rw [hrec]
            simp [hcap, ghChainItems]
          · have hc : m - currentPage = 0 := by omega
            simp [ghPages, underCap, hcap, capRem, hc, ghChainItems]

theorem dhPages_chain {α : Type} [DecidableEq α] (fetch : String → DhPage α) :
    ∀ (rest : List (String × DhPage α)) (u : String) (p : DhPage α)
      (fuel : Nat),
      dhChainB fetch ((u, p) :: rest) = true → rest.length < fuel →
      dhPagesLoop fetch fuel u = dhChainItems ((u, p) :: rest) := by
  intro rest
  induction rest with
  | nil =>
      intro u p fuel hch hf
      obtain ⟨f, rfl⟩ : ∃ f, fuel = f + 1 := ⟨fuel - 1, by omega⟩
      obtain ⟨hfetch, hmatch, -⟩ := (dhChainB_cons fetch u p []).mp hch
      have hnext : p.next = none := by
        rcases hn : p.next with _ | v
        · rfl
        · rw [hn] at hmatch
          exact absurd hmatch (by simp)
      simp [dhPagesLoop, hfetch, hnext, dhChainItems]
  | cons hd rest ih =>
      intro u p fuel hch hf
      obtain ⟨u', p'⟩ := hd
      obtain ⟨f, rfl⟩ : ∃ f, fuel = f + 1 := ⟨fuel - 1, by omega⟩
      obtain ⟨hfetch, hmatch, hrest⟩ :=
        (dhChainB_cons fetch u p ((u', p') :: rest)).mp hch
      have hnext : ∃ v, p.next = some v ∧ dhNorm v = u' := by
        rcases hn : p.next with _ | v
        · rw [hn] at hmatch
          exact absurd hmatch (by simp)
        · rw [hn] at hmatch
          simp only at hmatch
          exact ⟨v, rfl, hmatch⟩
      obtain ⟨v, hv, hvn⟩ := hnext
      have hrec := ih u' p' f hrest (by simpa using hf)
      simp only [dhPagesLoop, hfetch, hv, hvn, hrec]
      simp [dhChainItems]

/-- C4: pagination correctness.  For every finite chain of pages in which
each page carries a link to the next (a parsed `Link rel="next"` for the
GitHub client, a `next` body field for the Docker Hub client) and the last
page omits it, `get_paginated` returns exactly the concatenation of all
pages' items in page order (or of the first `max_pages` pages when the cap is
set), and `get_all_repos_for_namespace` returns the concatenation of all
pages' results; both terminate on the last page.  Each page fetch is the
`fetch` argument, which stands for `_make_request('GET', ...)` (gh_rest.py
line 247, dh_rest.py line 173) and hence goes through rate limiting and
retry. -/
theorem C4_pagination_concatenation :
    (∀ (α : Type) (inst : DecidableEq α)
       (fetch : String → Option (List (String × String)) → GhResponse α)
       (u : String) (r : GhResponse α) (rest : List (String × GhResponse α))
       (params : Option (List (String × String))) (fuel : Nat),
       ghChainB fetch (some (withPerPageDefault params)) ((u, r) :: rest) = true →
       rest.length < fuel →
       get_paginated fetch u params none fuel = ghChainItems ((u, r) :: rest)) ∧
    (∀ (α : Type) (inst : DecidableEq α)
       (fetch : String → Option (List (String × String)) → GhResponse α)
       (u : String) (r : GhResponse α) (rest : List (String × GhResponse α))
       (params : Option (List (String × String))) (fuel m : Nat),
       ghChainB fetch (some (withPerPageDefault params)) ((u, r) :: rest) = true →
       rest.length < fuel →
       get_paginated fetch u params (some m) fuel
         = ghChainItems (((u, r) :: rest).take m)) ∧
    (∀ (α : Type) (inst : DecidableEq α) (fetch : String → DhPage α)
       (ns : String) (p : DhPage α) (rest : List (String × DhPage α))
       (fuel : Nat),
       dhChainB fetch (("/v2/repositories/" ++ ns ++ "/", p) :: rest) = true →
       rest.length < fuel →
       get_all_repos_for_namespace fetch ns fuel
         = dhChainItems (("/v2/repositories/" ++ ns ++ "/", p) :: rest)) := by
  refine ⟨?_, ?_, ?_⟩
  · intro α inst fetch u r rest params fuel hch hf
    unfold get_paginated
    rw [ghPages_chain fetch none rest u r fuel 0
      (some (withPerPageDefault params)) hch hf]
    simp only [capRem]
    rw [List.take_of_length_le (by simp)]
  · intro α inst fetch u r rest params fuel m hch hf
    unfold get_paginated
    rw [ghPages_chain fetch (some m) rest u r fuel 0
      (some (withPerPageDefault params)) hch hf]
    simp only [capRem, Nat.sub_zero]
  · intro α inst fetch ns p rest fuel hch hf
    unfold get_all_repos_for_namespace
    exact dhPages_chain fetch rest _ p fuel hch hf

theorem C4_pagination_concatenation_witness :
    get_paginated
      (fun u _ =>
        if u = "/users/chase-roohms/repos" then
          (⟨.inl [1, 2],
            "<https://api.github.com/user/repos?page=2>; rel=\"next\"" ⟩ :
            GhResponse Nat)
        else if u = "https://api.github.com/user/repos?page=2" then
          ⟨.inl [3], "<https://api.github.com/user/repos?page=3>; rel=\"next\"" ⟩
        else if u = "https://api.github.com/user/repos?page=3" then
          ⟨.inl [4, 5], ""⟩
        else ⟨.inl [], ""⟩)
      "/users/chase-roohms/repos" none none 3 = [1, 2, 3, 4, 5] ∧
    get_all_repos_for_namespace
      (fun u =>
        if u = "/v2/repositories/neonvariant/" then
          (⟨[1, 2],
            some "https://hub.docker.com/v2/repositories/neonvariant/?page=2"⟩ :
            DhPage Nat)
        else if u = "/v2/repositories/neonvariant/?page=2" then
          ⟨[3], some "https://hub.docker.com/v2/repositories/neonvariant/?page=3"⟩
        else if u = "/v2/repositories/neonvariant/?page=3" then
          ⟨[4], none⟩
        else ⟨[], none⟩)
      "neonvariant" 3 = [1, 2, 3, 4] :=
  ⟨C4_pagination_concatenation.1 Nat inferInstance _
    "/users/chase-roohms/repos"
    ⟨.inl [1, 2], "<https://api.github.com/user/repos?page=2>; rel=\"next\"" ⟩
    [("https://api.github.com/user/repos?page=2",
      ⟨.inl [3], "<https://api.github.com/user/repos?page=3>; rel=\"next\"" ⟩),
     ("https://api.github.com/user/repos?page=3", ⟨.inl [4, 5], ""⟩)]
    none 3 (by decide) (by decide),
   C4_pagination_concatenation.2.2 Nat inferInstance _ "neonvariant"
    ⟨[1, 2], some "https://hub.docker.com/v2/repositories/neonvariant/?page=2"⟩
    [("/v2/repositories/neonvariant/?page=2",
      ⟨[3], some "https://hub.docker.com/v2/repositories/neonvariant/?page=3"⟩),
     ("/v2/repositories/neonvariant/?page=3", ⟨[4], none⟩)]
    3 (by decide) (by decide)⟩

/-- The fetch oracle refuting C5 for the GitHub client: the first page's
`Link rel="next"` is absolute, and the absolute URL and its path+query
normalization denote different pages, so which one the paginator requests is
observable in the returned items. -/
def c5fetch : String → Option (List (String × String)) → GhResponse Nat :=
  fun u _ =>
    if u = "/user/repos" then
      ⟨.inl [1], "<https://api.github.com/user/repos?page=2>; rel=\"next\"" ⟩
    else if u = "https://api.github.com/user/repos?page=2" then
      ⟨.inl [2], ""⟩
    else if u = "/user/repos?page=2" then
      ⟨.inl [99], ""⟩
    else ⟨.inl [], ""⟩

/-- C5 counterexample: the GitHub paginator performs no normalization.  The
parsed next link of page 1 is the absolute URL; the pagination result is
`[1, 2]` — the items served at the absolute URL — and not `[1, 99]`, the
items served at the stripped path+query form the claim requires; and the URL
`_make_request` builds from that endpoint is the absolute URL unchanged
(`urljoin` resolves an absolute URL to itself), with scheme and host
intact. -/
theorem C5_counterexample :
    ghNextOf (c5fetch "/user/repos" (some (withPerPageDefault none)))
        = some "https://api.github.com/user/repos?page=2" ∧
    get_paginated c5fetch "/user/repos" none none 2 = [1, 2] ∧
    urlPathQuery "https://api.github.com/user/repos?page=2"
        = "/user/repos?page=2" ∧
    c5fetch "/user/repos?page=2" none = ⟨.inl [99], ""⟩ ∧
    ghRequestUrl "https://api.github.com"
        "https://api.github.com/user/repos?page=2"
      = "https://api.github.com/user/repos?page=2" := by decide

/-- C5 (amended): only the Docker Hub paginator normalizes absolute "next"
URLs — an absolute URL is reduced to its path plus query string before the
next fetch (dh_rest.py lines 183-186).  The GitHub paginator passes the
absolute next link to `_make_request` unchanged, and `_make_request`'s
`urljoin` resolves an absolute URL to itself, so the next page is requested
at the absolute URL with scheme and host intact rather than at a stripped
relative form. -/
theorem C5_next_url_normalization :
    (∀ (host path q : String),
       (∀ c ∈ host.data, c ≠ '/') → (∀ c ∈ path.data, c ≠ '?' ∧ c ≠ '#') →
       (∀ c ∈ q.data, c ≠ '#') → q.data ≠ [] →
       dhNorm ("https://" ++ host ++ "/" ++ path ++ "?" ++ q)
         = "/" ++ path ++ "?" ++ q) ∧
    (∀ (α : Type) (fetch : String → DhPage α) (fuel : Nat) (u : String)
       (p : DhPage α) (v : String), fetch u = p → p.next = some v →
       dhPagesLoop fetch (fuel + 1) u
         = p.results ++ dhPagesLoop fetch fuel (dhNorm v)) ∧
    (∀ (α : Type)
       (fetch : String → Option (List (String × String)) → GhResponse α)
       (mp : Option Nat) (fuel currentPage : Nat) (u : String)
       (params : Option (List (String × String))) (r : GhResponse α)
       (u' : String),
       fetch u params = r → ghNextOf r = some u' →
       underCap mp currentPage = true →
       ghPages fetch mp (fuel + 1) currentPage u params
         = ghItemsOf r ++ ghPages fetch mp fuel (currentPage + 1) u' none) ∧
    (∀ (base rest : String),
       ghRequestUrl base ("https://" ++ rest) = "https://" ++ rest) := by
  refine ⟨?_, ?_, ?_, ?_⟩
  · intro host path q hhost hpath hq hqne
    have hd : ("https://" ++ host ++ "/" ++ path ++ "?" ++ q).data
        = 'h' :: 't' :: 't' :: 'p' :: 's' :: ':' :: '/' :: '/' ::
            (host.data ++ '/' :: (path.data ++ '?' :: q.data)) := by
      simp only [String.data_append]
      simp
    have hs : startsHttp ("https://" ++ host ++ "/" ++ path ++ "?" ++ q)
        = true := by
      simp [startsHttp, hd]
    rw [dhNorm, if_pos hs, urlPathQuery_spec host path q hhost hpath hq hqne]
  · intro α fetch fuel u p v hfetch hnext
    simp [dhPagesLoop, hfetch, hnext]
  · intro α fetch mp fuel currentPage u params r u' hfetch hnext hcap
    simp [ghPages, hcap, hfetch, hnext]
  · intro base rest
    have hd : ("https://" ++ rest).data
        = 'h' :: 't' :: 't' :: 'p' :: 's' :: ':' :: '/' :: '/' :: rest.data := by
      simp only [String.data_append]
      simp
    have hstrip : lstripSlash ("https://" ++ rest) = "https://" ++ rest := by
      refine String.ext ?_
      simp [lstripSlash, hd]
    rw [ghRequestUrl, hstrip, urljoinModel, if_pos]
    rw [hd]
    exact hasSchemeSep_https rest.data

theorem C5_next_url_normalization_witness :
    dhNorm "https://hub.docker.com/v2/repositories/neonvariant/?page=2"
      = "/v2/repositories/neonvariant/?page=2" ∧
    ghRequestUrl "https://api.github.com" "https://api.github.com/x?page=2"
      = "https://api.github.com/x?page=2" :=
  ⟨C5_next_url_normalization.1 "hub.docker.com" "v2/repositories/neonvariant/"
      "page=2" (by decide) (by decide) (by decide) (by decide),
   C5_next_url_normalization.2.2.2 "https://api.github.com" "api.github.com/x?page=2"⟩
